import Mathlib

/-!
# Verification of `scripts/build_wiki.py`

A shallow embedding of the pure core of the static-wiki generator:
the text segmenter (`split_paragraphs`), the heading classifier
(`looks_like_heading`), the slug derivation (`slugify`), the tabular
extractor (`parse_law_enforcement_guide` with its two regexes), and the
HTML page renderers (`build_doc_html`, `build_nav`,
`build_arrests_fines_page`, `build_index_html`).

Strings are modelled as Lean `String` (a list of characters), matching
CPython's sequence-of-codepoints view.  Case mapping and whitespace
classification are modelled at the ASCII level, which is exact on every
character class these functions actually branch on (`[a-z0-9]`,
`[A-Z]`, the ASCII whitespace set); Python's `str.lower` on a
non-ASCII character never produces a character that the pipeline treats
differently from the original, except for exotic case-folding pairs
(e.g. U+212A) that no claim touches.
-/

namespace Knp

/-! ## Character classes (ASCII-level model of the Python predicates) -/

/-- Python `str.isspace` / default `str.strip`, restricted to the ASCII
whitespace characters: space, tab, newline, carriage return, vertical
tab, form feed. -/
def pyIsSpace (c : Char) : Bool :=
  c = ' ' || c = '\t' || c = '\n' || c = '\r' || c = '\x0b' || c = '\x0c'

def isLowerAZ (c : Char) : Bool := 'a' ≤ c && c ≤ 'z'

def isUpperAZ (c : Char) : Bool := 'A' ≤ c && c ≤ 'Z'

def isDigit09 (c : Char) : Bool := '0' ≤ c && c ≤ '9'

/-- An ASCII cased character; for ASCII, Python's "cased" and "letter"
coincide. -/
def isCasedAZ (c : Char) : Bool := isUpperAZ c || isLowerAZ c

/-- `[a-z0-9]`, the character class kept by `slugify`. -/
def isAlnumL (c : Char) : Bool := isLowerAZ c || isDigit09 c

/-- Python `str.lower`, ASCII case mapping. -/
def pyLowerChar (c : Char) : Char :=
  if isUpperAZ c then Char.ofNat (c.toNat + 32) else c

def strLower (s : String) : String := ⟨s.data.map pyLowerChar⟩

/-! ## Basic string operations -/

/-- Both-ends trim on a character list with predicate `pyIsSpace`
(Python `str.strip()`). -/
def stripList (cs : List Char) : List Char :=
  ((cs.dropWhile pyIsSpace).reverse.dropWhile pyIsSpace).reverse

def pyStrip (s : String) : String := ⟨stripList s.data⟩

/-- Python `"sep".join`-style concatenation. -/
def joinWith (sep : String) : List String → String
  | [] => ""
  | [p] => p
  | p :: ps => p ++ sep ++ joinWith sep ps

/-- Worker for Python `str.split()` (split on whitespace runs, dropping
empty pieces); `acc` is the current word reversed. -/
def splitWsGo : List Char → List Char → List (List Char)
  | [], acc => if acc.isEmpty then [] else [acc.reverse]
  | c :: r, acc =>
    if pyIsSpace c then
      if acc.isEmpty then splitWsGo r [] else acc.reverse :: splitWsGo r []
    else splitWsGo r (c :: acc)

def pySplitWs (s : String) : List String :=
  (splitWsGo s.data []).map fun l => ⟨l⟩

/-- `" ".join(block.split())` — collapse internal whitespace runs to
single spaces. -/
def collapse (s : String) : String := joinWith " " (pySplitWs s)

/-- Python `text.split("\n")`. -/
def splitNlGo : List Char → List Char → List (List Char)
  | [], acc => [acc.reverse]
  | c :: r, acc =>
    if c = '\n' then acc.reverse :: splitNlGo r [] else splitNlGo r (c :: acc)

/-- Python `str.splitlines()` (line boundaries: `\r\n`, `\r`, `\n`,
`\x0b`, `\x0c`, `\x1c`, `\x1d`, `\x1e`, `\x85`, U+2028, U+2029; no
trailing empty line). -/
def splitlinesGo : List Char → List Char → List (List Char)
  | [], acc => if acc.isEmpty then [] else [acc.reverse]
  | '\r' :: '\n' :: r, acc => acc.reverse :: splitlinesGo r []
  | c :: r, acc =>
    if c = '\n' || c = '\r' || c = '\x0b' || c = '\x0c' || c = '\x1c' ||
       c = '\x1d' || c = '\x1e' || c = '\x85' || c = '\u2028' || c = '\u2029' then
      acc.reverse :: splitlinesGo r []
    else splitlinesGo r (c :: acc)

def pySplitlines (s : String) : List String :=
  (splitlinesGo s.data []).map fun l => ⟨l⟩

/-- `pat` is a prefix of `l` (Python `str.startswith`). -/
def prefixEq : List Char → List Char → Bool
  | [], _ => true
  | _ :: _, [] => false
  | a :: as, b :: bs => a = b && prefixEq as bs

/-- `pat` occurs as a contiguous substring of `hay`. -/
def hasSub : List Char → List Char → Bool
  | [], pat => prefixEq pat []
  | c :: rest, pat => prefixEq pat (c :: rest) || hasSub rest pat

/-! ## `slugify` (build_wiki.py lines 29–34) -/

/-- `re.sub(r"[^a-z0-9]+", "-", s)`: replace each maximal run of
characters outside `[a-z0-9]` by a single hyphen.  `inRun` records
whether the hyphen for the current run was already emitted. -/
def sub1Go : List Char → Bool → List Char
  | [], _ => []
  | c :: r, inRun =>
    if isAlnumL c then c :: sub1Go r false
    else if inRun then sub1Go r true
    else '-' :: sub1Go r true

/-- `re.sub(r"-{2,}", "-", s)`: collapse each run of hyphens to a single
hyphen (keep the first of each run). -/
def dedupHGo : List Char → Bool → List Char
  | [], _ => []
  | c :: r, prevH =>
    if c = '-' then
      if prevH then dedupHGo r true else '-' :: dedupHGo r true
    else c :: dedupHGo r false

/-- Python `str.strip("-")`. -/
def stripHyphen (cs : List Char) : List Char :=
  ((cs.dropWhile (· = '-')).reverse.dropWhile (· = '-')).reverse

/-- `re.sub(r"\.pdf$", "", s, flags=re.I)` applied to an
already-lowercased, whitespace-stripped string: drop a literal `.pdf`
suffix.  (After `lower()` the case-insensitive flag is moot, and after
`strip()` there is no trailing newline for `$` to sit in front of.) -/
def dropPdfSuffix (cs : List Char) : List Char :=
  if cs.reverse.take 4 = ['f', 'd', 'p', '.'] then cs.take (cs.length - 4) else cs

/-- `slugify` (source lines 29–34). -/
def slugify (name : String) : String :=
  let s1 := stripList (strLower name).data
  let s2 := dropPdfSuffix s1
  let s3 := sub1Go s2 false
  let s4 := dedupHGo s3 false
  let s5 := stripHyphen s4
  if s5.isEmpty then "doc" else ⟨s5⟩

/-- The slug format of the spec: `^[a-z0-9]+(-[a-z0-9]+)*$`, i.e.
non-empty, only `[a-z0-9-]`, no leading/trailing hyphen, no `--`. -/
def validSlug (s : String) : Bool :=
  !s.data.isEmpty &&
  s.data.all (fun c => isAlnumL c || c = '-') &&
  (match s.data.head? with | some c => decide (c ≠ '-') | none => false) &&
  (match s.data.getLast? with | some c => decide (c ≠ '-') | none => false) &&
  !hasSub s.data ['-', '-']

/-! ## `split_paragraphs` (lines 50–56) -/

/-- First normalization pass: `text.replace("\r\n", "\n")`. -/
def normCRLF : List Char → List Char
  | '\r' :: '\n' :: r => '\n' :: normCRLF r
  | c :: r => c :: normCRLF r
  | [] => []

/-- Both passes: `replace("\r\n", "\n").replace("\r", "\n")`. -/
def normNL (cs : List Char) : List Char :=
  (normCRLF cs).map fun c => if c = '\r' then '\n' else c

/-- The page-break marker token. -/
def pbMarker : String := "[[PAGEBREAK]]"

/-- `t.replace("\f", "\n\n[[PAGEBREAK]]\n\n")`. -/
def expandFF (cs : List Char) : List Char :=
  cs.flatMap fun c =>
    if c = '\x0c' then ("\n\n" ++ pbMarker ++ "\n\n").data else [c]

/-- Worker for `re.split(r"\n{2,}", t)`: `acc` is the current segment
reversed, `n` is the count of pending consecutive newlines not yet
committed to the segment.  A run of ≥ 2 newlines separates segments; a
single newline stays inside its segment. -/
def sbGo : List Char → List Char → Nat → List (List Char)
  | [], acc, n =>
    if 2 ≤ n then [acc.reverse, []] else [acc.reverse ++ List.replicate n '\n']
  | c :: r, acc, n =>
    if c = '\n' then sbGo r acc (n + 1)
    else if 2 ≤ n then acc.reverse :: sbGo r [c] 0
    else sbGo r (c :: (List.replicate n '\n' ++ acc)) 0

/-- `split_paragraphs` (source lines 50–56). -/
def splitParagraphs (text : String) : List String :=
  let t := expandFF (normNL text.data)
  ((sbGo t [] 0).map fun seg => pyStrip ⟨seg⟩).filter fun b => b ≠ ""

/-! ## `looks_like_heading` (lines 59–72) -/

/-- Python `str.isupper`: at least one cased character, and no cased
character is lowercase. -/
def pyIsUpper (s : String) : Bool :=
  s.data.any isCasedAZ && s.data.all fun c => !isCasedAZ c || isUpperAZ c

/-- `re.search(r"[.!?]$", one)`: the last character — or, when the
string ends in a newline, the character just before that final
newline — is `.`, `!` or `?`. -/
def endsPunct (s : String) : Bool :=
  match s.data.reverse with
  | '\n' :: rest =>
    match rest.head? with
    | some c => c = '.' || c = '!' || c = '?'
    | none => false
  | r =>
    match r.head? with
    | some c => c = '.' || c = '!' || c = '?'
    | none => false

/-- `w[:1].isupper()` for a word `w`. -/
def firstUpper (w : String) : Bool :=
  match w.data with
  | [] => false
  | c :: _ => isUpperAZ c

/-- `looks_like_heading` (source lines 59–72). -/
def looksLikeHeading (block : String) : Bool :=
  let one := collapse block
  if 80 < one.length then false
  else if pyIsUpper one then true
  else if endsPunct one then false
  else
    let words := pySplitWs one
    if 2 ≤ words.length && max 2 (words.length - 1) ≤ words.countP firstUpper then
      true
    else false

/-! ## `escape` (line 41–42, `html.escape(s, quote=True)`) -/

/-- Per-character entity substitution of `html.escape(·, quote=True)`.
CPython implements it as five sequential `str.replace` calls in the
order `&`, `<`, `>`, `"`, `'`; since no replacement string contains a
character replaced later, the composite is this character-wise map. -/
def escChar (c : Char) : String :=
  if c = '&' then "&amp;"
  else if c = '<' then "&lt;"
  else if c = '>' then "&gt;"
  else if c = '"' then "&quot;"
  else if c = '\'' then "&#x27;"
  else ⟨[c]⟩

def escape (s : String) : String :=
  ⟨s.data.flatMap fun c => (escChar c).data⟩

/-- An independent entity decoder, used to show `escape` loses no
information (every special character of the input is present in the
output in escaped form). -/
def unescGo : List Char → List Char
  | [] => []
  | c :: r =>
    if c = '&' && prefixEq ['a', 'm', 'p', ';'] r then '&' :: unescGo (r.drop 4)
    else if c = '&' && prefixEq ['l', 't', ';'] r then '<' :: unescGo (r.drop 3)
    else if c = '&' && prefixEq ['g', 't', ';'] r then '>' :: unescGo (r.drop 3)
    else if c = '&' && prefixEq ['q', 'u', 'o', 't', ';'] r then '"' :: unescGo (r.drop 5)
    else if c = '&' && prefixEq ['#', 'x', '2', '7', ';'] r then '\'' :: unescGo (r.drop 5)
    else c :: unescGo r
  termination_by l => l.length
  decreasing_by all_goals (simp [List.length_drop]; try omega)

def unescape (s : String) : String := ⟨unescGo s.data⟩

/-! ## The two regexes (line 148–149)

`_TIME_RE = re.compile(r"(?i)^(\\d+\\s*(seconds?|minutes?))$")`

The pattern is written inside a *raw* string, so `\\d` is two source
characters `\` `\` followed by `d`: the regex engine reads `\\` as an
escaped literal backslash and `d+` as one-or-more letter `d`.  The
compiled pattern is therefore

  `(?i)^(\ [dD]+ \ [sS]* (seconds?|minutes?))$`

i.e. it only matches strings that literally start with a backslash —
not time phrases like `30 seconds`.  `_AMOUNT_RE` has the same doubled
backslashes:

  `[€ƒ$]\ [s]* \ d  |  \ d+ \ s* (?:eur|euro|usd|gbp)  |  \ d+ [\.,] \ d+`

(no `(?i)` flag, so the letters are case-sensitive there). -/

/-- Full anchored match of the core of `_TIME_RE` (everything between
`^` and `$`): literal `\`, then `[dD]+`, then literal `\`, then
`[sS]*`, then `second(s)`/`minute(s)` case-insensitively, ending the
string.  The `[sS]*` loop may hand characters over to the leading `s`
of `second(s)` (regex backtracking), so after skipping the whole
`[sS]` run the remainder must read `minute(s)` — or `econd(s)` with at
least one `s` taken from the run. -/
def timeCore (cs : List Char) : Bool :=
  match cs with
  | '\\' :: r =>
    let ds := r.takeWhile fun c => pyLowerChar c = 'd'
    let r1 := r.dropWhile fun c => pyLowerChar c = 'd'
    !ds.isEmpty &&
    (match r1 with
     | '\\' :: r2 =>
       let lead := r2.takeWhile fun c => pyLowerChar c = 's'
       let low := (r2.dropWhile fun c => pyLowerChar c = 's').map pyLowerChar
       (low = "minute".data || low = "minutes".data) ||
       (!lead.isEmpty && (low = "econd".data || low = "econds".data))
     | _ => false)
  | _ => false

/-- Truthiness of `_TIME_RE.match(ln)`.  `$` also matches just before a
single trailing newline. -/
def timeReMatch (s : String) : Bool :=
  timeCore s.data ||
  (if s.data.getLast? = some '\n' then timeCore s.data.dropLast else false)

/-- First `_AMOUNT_RE` alternative: `[€ƒ$]\\s*\\d` = a currency symbol,
a literal backslash, zero or more `s`, a literal backslash, a `d`. -/
def amtAlt1 (cs : List Char) : Bool :=
  match cs with
  | c :: '\\' :: r =>
    (c = '€' || c = 'ƒ' || c = '$') &&
    (match r.dropWhile (· = 's') with
     | '\\' :: 'd' :: _ => true
     | _ => false)
  | _ => false

/-- Second alternative: `\\d+\\s*(?:eur|euro|usd|gbp)`. -/
def amtAlt2 (cs : List Char) : Bool :=
  match cs with
  | '\\' :: r =>
    let ds := r.takeWhile (· = 'd')
    let r1 := r.dropWhile (· = 'd')
    !ds.isEmpty &&
    (match r1 with
     | '\\' :: r2 =>
       let r3 := r2.dropWhile (· = 's')
       prefixEq "eur".data r3 || prefixEq "usd".data r3 || prefixEq "gbp".data r3
     | _ => false)
  | _ => false

/-- Third alternative: `\\d+[\\.,]\\d+` (the character class holds `\`,
`.` and `,`). -/
def amtAlt3 (cs : List Char) : Bool :=
  match cs with
  | '\\' :: r =>
    let ds := r.takeWhile (· = 'd')
    let r1 := r.dropWhile (· = 'd')
    !ds.isEmpty &&
    (match r1 with
     | c :: '\\' :: 'd' :: _ => c = '\\' || c = '.' || c = ','
     | _ => false)
  | _ => false

def amtHit (cs : List Char) : Bool := amtAlt1 cs || amtAlt2 cs || amtAlt3 cs

def amountAux : List Char → Bool
  | [] => false
  | c :: r => amtHit (c :: r) || amountAux r

/-- Truthiness of `_AMOUNT_RE.search(ln)`: some suffix position starts
a match of one of the three alternatives. -/
def amountSearch (s : String) : Bool := amountAux s.data

/-! ## `parse_law_enforcement_guide` (lines 152–218) -/

structure ParsedGuide where
  arrests : List (String × String)
  fines : List (String × String)
  notes : List String
deriving Repr, DecidableEq

/-- `[ln.strip() for ln in text.replace("\r", "").split("\n")]`. -/
def guideLines (text : String) : List String :=
  (splitNlGo (text.data.filter fun c => c ≠ '\r') []).map fun l => pyStrip ⟨l⟩

/-- The index-locating loop (lines 159–166): remember the latest line
case-insensitively equal to `"arrest reasons"`; stop at the first line
case-insensitively equal to `"monetary fines"`. -/
def scanIdx : List String → Nat → Option Nat → Option Nat × Option Nat
  | [], _, a => (a, none)
  | ln :: r, i, a =>
    let a' := if strLower ln = "arrest reasons" then some i else a
    if strLower ln = "monetary fines" then (a', some i) else scanIdx r (i + 1) a'

/-- Mutable state of one section loop: the not-yet-emitted label lines,
the `started` flag, the emitted rows, and (fine section only) the
captured note lines. -/
structure SecState where
  buf : List String
  started : Bool
  rows : List (String × String)
  notes : List String
deriving Repr, DecidableEq

/-- One iteration of the arrest-section loop (lines 180–192).  The
header match list is kept verbatim from the source, duplicate and
trailing-space variant included. -/
def arrestStep (st : SecState) (ln : String) : SecState :=
  if strLower ln = "arrest reasons" || strLower ln = "arrest reason" ||
     strLower ln = "jail time" || strLower ln = "jail time" ||
     strLower ln = "jail time " then
    { st with started := true }
  else if !st.started then st
  else if timeReMatch ln then
    let reason := pyStrip (joinWith " " st.buf)
    { st with buf := [],
              rows := if reason ≠ "" then st.rows ++ [(reason, ln)] else st.rows }
  else { st with buf := st.buf ++ [ln] }

/-- One iteration of the fine-section loop (lines 200–216). -/
def fineStep (st : SecState) (ln : String) : SecState :=
  if strLower ln = "monetary fines" || strLower ln = "monetary fine" ||
     strLower ln = "amount" then
    { st with started := true }
  else if !st.started then st
  else if prefixEq "*".data ln.data then { st with notes := st.notes ++ [ln] }
  else if amountSearch ln && !st.buf.isEmpty then
    let fineName := pyStrip (joinWith " " st.buf)
    { st with buf := [],
              rows := if fineName ≠ "" then st.rows ++ [(fineName, ln)] else st.rows }
  else { st with buf := st.buf ++ [ln] }

def initSec : SecState := ⟨[], false, [], []⟩

/-- `parse_law_enforcement_guide` (source lines 152–218).  The slice
bound `lines[arrest_idx : (fine_idx or len(lines))]` is embedded with
Python's falsiness of `0`: a fine index of `0` behaves like "absent". -/
def parseLawEnforcementGuide (text : String) : ParsedGuide :=
  let lines := guideLines text
  let idxs := scanIdx lines 0 none
  let arrests :=
    match idxs.1 with
    | none => []
    | some a =>
      let endI := match idxs.2 with
        | some k => if k = 0 then lines.length else k
        | none => lines.length
      let chunk := ((lines.drop a).take (endI - a)).filter fun l => l ≠ ""
      (chunk.foldl arrestStep initSec).rows
  let fin :=
    match idxs.2 with
    | none => ([], [])
    | some f =>
      let chunk := (lines.drop f).filter fun l => l ≠ ""
      let st := chunk.foldl fineStep initSec
      (st.rows, st.notes)
  ⟨arrests, fin.1, fin.2⟩

/-! ## Page renderers (lines 75–145, 221–294, 297–356)

Each Python function appends strings to a `parts` list and returns
`"\n".join(parts) + "\n"` (`build_nav`: no trailing newline).  The
triple-quoted header/footer template literals are reproduced verbatim,
`.strip()` applied as in the source. -/

/-- The shared top bar of `build_doc_html` (the `"""..."""with
`.strip()` applied). -/
def docHeaderPart : String :=
  "<header class=\"topbar\">\n      <div class=\"wrap topbar-inner\">\n        <a class=\"brand\" href=\"/wiki/\">KNP Guide</a>\n        <nav class=\"topnav\">\n          <a href=\"/wiki/\">Wiki</a>\n          <a href=\"/wiki/arrests-fines.html\">Arrests &amp; Fines</a>\n          <a href=\"/\">Home</a>\n        </nav>\n      </div>\n    </header>"

/-- Top bar of `build_arrests_fines_page` (the arrests link carries
`class="active"`). -/
def afHeaderPart : String :=
  "<header class=\"topbar\">\n      <div class=\"wrap topbar-inner\">\n        <a class=\"brand\" href=\"/wiki/\">KNP Guide</a>\n        <nav class=\"topnav\">\n          <a href=\"/wiki/\">Wiki</a>\n          <a class=\"active\" href=\"/wiki/arrests-fines.html\">Arrests &amp; Fines</a>\n          <a href=\"/\">Home</a>\n        </nav>\n      </div>\n    </header>"

/-- Top bar of `build_index_html` (the Wiki link carries
`class="active"`). -/
def idxHeaderPart : String :=
  "<header class=\"topbar\">\n      <div class=\"wrap topbar-inner\">\n        <a class=\"brand\" href=\"/wiki/\">KNP Guide</a>\n        <nav class=\"topnav\">\n          <a class=\"active\" href=\"/wiki/\">Wiki</a>\n          <a href=\"/wiki/arrests-fines.html\">Arrests &amp; Fines</a>\n          <a href=\"/\">Home</a>\n        </nav>\n      </div>\n    </header>"

/-- Footer of `build_doc_html` and `build_arrests_fines_page`. -/
def docFooterPart : String :=
  "<footer class=\"footer\">\n      <div class=\"wrap footer-inner\">\n        <div class=\"muted\">KNP Guide</div>\n        <div class=\"muted\">Generated from source PDFs.</div>\n      </div>\n    </footer>"

/-- Footer of `build_index_html`. -/
def idxFooterPart : String :=
  "<footer class=\"footer\">\n      <div class=\"wrap footer-inner\">\n        <div class=\"muted\">KNP Guide</div>\n        <div class=\"muted\">Search runs locally in your browser.</div>\n      </div>\n    </footer>"

/-- `"\n" in b and len(b.splitlines()) >= 3`: the preformatted-block
branch of `build_doc_html`. -/
def preBranch (b : String) : Bool :=
  b.data.contains '\n' && 3 ≤ (pySplitlines b).length

/-- The per-block body of the loop in `build_doc_html` (lines
107–119). -/
def renderBlock (b : String) : String :=
  if b = pbMarker then "<hr class=\"pagebreak\" />"
  else if looksLikeHeading b then
    "<h2 id=\"" ++ escape ⟨(slugify b).data.take 64⟩ ++ "\">" ++
      escape (collapse b) ++ "</h2>"
  else if preBranch b then
    "<pre class=\"preblock\">" ++ escape b ++ "</pre>"
  else "<p>" ++ escape (collapse b) ++ "</p>"

/-- The `parts` list of `build_doc_html`. -/
def buildDocHtmlParts (title : String) (blocks : List String)
    (nav updated : String) : List String :=
  ["<!doctype html>",
   "<html lang=\"en\">",
   "<head>",
   "<meta charset=\"utf-8\" />",
   "<meta name=\"viewport\" content=\"width=device-width, initial-scale=1\" />",
   "<title>" ++ escape title ++ " | KNP Guide</title>",
   "<link rel=\"stylesheet\" href=\"/wiki/wiki.css\" />",
   "<script src=\"/wiki/wiki.js\" defer></script>",
   "</head>",
   "<body>",
   docHeaderPart,
   "<main class=\"wrap layout\">",
   "<aside class=\"sidebar\">" ++ nav ++ "</aside>",
   "<article class=\"content card\">",
   "<h1>" ++ escape title ++ "</h1>",
   "<div class=\"meta\">Updated: <time datetime=\"" ++ updated ++ "\">" ++
     escape updated ++ "</time></div>"]
  ++ blocks.map renderBlock
  ++ ["</article>", "</main>", docFooterPart, "</body></html>"]

/-- `build_doc_html` (source lines 75–134). -/
def buildDocHtml (title : String) (blocks : List String)
    (nav updated : String) : String :=
  joinWith "\n" (buildDocHtmlParts title blocks nav updated) ++ "\n"

/-- One `<li>` item of `build_nav`. -/
def navItemPart (d : String × String) : String :=
  "<li><a href=\"" ++ escape d.2 ++ "\">" ++ escape d.1 ++ "</a></li>"

/-- `build_nav` (source lines 137–145); `docs` is the `(title, href)`
list. -/
def buildNav (docs : List (String × String)) : String :=
  joinWith "\n"
    (["<div class=\"nav-title\">Documents</div>", "<ul class=\"nav-list\">"]
     ++ docs.map navItemPart ++ ["</ul>"])

/-- One table row of `build_arrests_fines_page`. -/
def afRow (r : String × String) : String :=
  "<tr><td>" ++ escape r.1 ++ "</td><td>" ++ escape r.2 ++ "</td></tr>"

def afPlaceholderArrest : String :=
  "<tr><td colspan=\"2\" class=\"muted\">No arrest data parsed.</td></tr>"

def afPlaceholderFine : String :=
  "<tr><td colspan=\"2\" class=\"muted\">No fine data parsed.</td></tr>"

def notePart (n : String) : String := "<p>" ++ escape n ++ "</p>"

/-- The `parts` list of `build_arrests_fines_page`.  The Python
`parsed.get(...) or []` falsiness coercions are identities on the
structure fields. -/
def buildAfParts (parsed : ParsedGuide) (nav updated : String) : List String :=
  ["<!doctype html>",
   "<html lang=\"en\">",
   "<head>",
   "<meta charset=\"utf-8\" />",
   "<meta name=\"viewport\" content=\"width=device-width, initial-scale=1\" />",
   "<title>Arrests & Fines | KNP Guide</title>",
   "<link rel=\"stylesheet\" href=\"/wiki/wiki.css\" />",
   "<script src=\"/wiki/wiki.js\" defer></script>",
   "</head>",
   "<body>",
   afHeaderPart,
   "<main class=\"wrap layout\">",
   "<aside class=\"sidebar\">" ++ nav ++ "</aside>",
   "<article class=\"content card\">",
   "<h1>Arrests &amp; Fines</h1>",
   "<p class=\"muted\">Source: Law Enforcement Guide.pdf</p>",
   "<div class=\"meta\">Updated: <time datetime=\"" ++ updated ++ "\">" ++
     escape updated ++ "</time></div>",
   "<h2>Arrest reasons</h2>",
   "<div class=\"tablewrap\"><table><thead><tr><th>Reason</th><th>Jail time</th></tr></thead><tbody>"]
  ++ parsed.arrests.map afRow
  ++ (if parsed.arrests.isEmpty then [afPlaceholderArrest] else [])
  ++ ["</tbody></table></div>",
      "<h2>Monetary fines</h2>",
      "<div class=\"tablewrap\"><table><thead><tr><th>Fine</th><th>Amount</th></tr></thead><tbody>"]
  ++ parsed.fines.map afRow
  ++ (if parsed.fines.isEmpty then [afPlaceholderFine] else [])
  ++ ["</tbody></table></div>"]
  ++ (if parsed.notes.isEmpty then []
      else "<h2>Notes</h2>" :: parsed.notes.map notePart)
  ++ ["<p class=\"muted\">For full wording and context, open <a href=\"/wiki/docs/law-enforcement-guide.html\">Law Enforcement Guide</a>.</p>",
      "</article></main>",
      docFooterPart,
      "</body></html>"]

/-- `build_arrests_fines_page` (source lines 221–294). -/
def buildArrestsFinesPage (parsed : ParsedGuide) (nav updated : String) : String :=
  joinWith "\n" (buildAfParts parsed nav updated) ++ "\n"

/-- The three dict entries `build_index_html` reads from each
`docs_meta` element. -/
structure IndexCard where
  title : String
  href : String
  pages : String
deriving Repr, DecidableEq

/-- One document card of `build_index_html` (the triple-quoted
f-string, `.strip()` applied). -/
def cardPart (d : IndexCard) : String :=
  "<a class=\"doccard\" href=\"" ++ escape d.href ++ "\">\n        <div class=\"doccard-title\">" ++
    escape d.title ++ "</div>\n        <div class=\"doccard-meta\">" ++
    escape d.pages ++ " pages</div>\n      </a>"

/-- The `parts` list of `build_index_html`; the joined card list is a
single element, as in the source. -/
def buildIndexParts (docs : List IndexCard) (updated : String) : List String :=
  ["<!doctype html>",
   "<html lang=\"en\">",
   "<head>",
   "<meta charset=\"utf-8\" />",
   "<meta name=\"viewport\" content=\"width=device-width, initial-scale=1\" />",
   "<title>Wiki | KNP Guide</title>",
   "<link rel=\"stylesheet\" href=\"/wiki/wiki.css\" />",
   "<script src=\"/wiki/wiki.js\" defer></script>",
   "</head>",
   "<body>",
   idxHeaderPart,
   "<main class=\"wrap\">",
   "<section class=\"hero card\">",
   "<h1>Knowledge Base</h1>",
   "<p class=\"muted\">Search and browse the official KNP/NLD documents.</p>",
   "<div class=\"searchbar\"><input id=\"wiki-search\" type=\"search\" placeholder=\"Search documents...\" /></div>",
   "<div class=\"meta\">Updated: <time datetime=\"" ++ updated ++ "\">" ++
     escape updated ++ "</time></div>",
   "</section>",
   "<section id=\"wiki-results\" class=\"docgrid\">",
   joinWith "\n" (docs.map cardPart),
   "</section>",
   "</main>",
   idxFooterPart,
   "</body></html>"]

/-- `build_index_html` (source lines 297–356). -/
def buildIndexHtml (docs : List IndexCard) (updated : String) : String :=
  joinWith "\n" (buildIndexParts docs updated) ++ "\n"

/-! ## Counting the HTML-significant characters

`sCount s` is the total number of `<`, `>` and `"` characters in `s`.
The escaping theorems below show that for every renderer this total is a
function of the input *shape* only (list lengths and per-block branch),
never of the content of the interpolated user strings — i.e. no raw
`<`/`>`/`"` from user data ever reaches the output. -/

def countChar (c : Char) (s : String) : Nat := s.data.count c

def sCount (s : String) : Nat :=
  countChar '<' s + countChar '>' s + countChar '"' s

/-- Per-block contribution of `render­Block` to `sCount`: the markup of
the branch taken, nothing from the block's content. -/
def blockSpecials (b : String) : Nat :=
  if b = pbMarker then 4
  else if looksLikeHeading b then 6
  else if preBranch b then 6
  else 4

/-- The §8 sample text of the spec. -/
def sampleGuideText : String :=
  "Arrest Reasons\nArrest Reason\nJail Time\nSpeeding\n30 seconds\nResisting Arrest\n2 minutes\nMonetary Fines\nAmount\nLittering\n$50\n* Fines subject to change"

/-- The heading rules as worded by the claim (C4), first match wins:
(1) collapsed text longer than 80 characters — paragraph; (2) entirely
upper-case with at least one letter — heading; (3) ends in `.`, `!` or
`?` — paragraph; (4) at least two words of which at least
`max 2 (wordCount - 1)` start with an upper-case letter — heading;
(5) otherwise paragraph. -/
def specLooksLikeHeading (block : String) : Bool :=
  let one := collapse block
  let words := pySplitWs one
  if 80 < one.length then false
  else if one.data.any isCasedAZ && one.data.all (fun c => !isCasedAZ c || isUpperAZ c) then
    true
  else if (match one.data.getLast? with
           | some c => c = '.' || c = '!' || c = '?'
           | none => false) then false
  else if 2 ≤ words.length && max 2 (words.length - 1) ≤ words.countP firstUpper then
    true
  else false

/-- A well-formed extracted-row label: non-empty and already
whitespace-trimmed (hence not whitespace-only). -/
def goodLabel (s : String) : Prop := s ≠ "" ∧ pyStrip s = s

/-! ## Lemmas about counting -/

theorem countChar_append (c : Char) (s t : String) :
    countChar c (s ++ t) = countChar c s + countChar c t := by
  simp [countChar, String.data_append]

theorem sCount_append (s t : String) : sCount (s ++ t) = sCount s + sCount t := by
  simp [sCount, countChar_append]; omega

theorem sCount_empty : sCount "" = 0 := by decide

theorem sCount_nl : sCount "\n" = 0 := by decide

theorem sCount_joinWith_nl (l : List String) :
    sCount (joinWith "\n" l) = (l.map sCount).sum := by
  induction l with
  | nil => simpa using sCount_empty
  | cons p ps ih =>
    cases ps with
    | nil => simp [joinWith]
    | cons q qs =>
      simp only [joinWith, List.map_cons, List.sum_cons] at ih ⊢
      rw [sCount_append, sCount_append, sCount_nl, ih]
      omega

theorem escChar_sCount (c : Char) : sCount (escChar c) = 0 := by
  unfold escChar
  split
  · decide
  · split
    · decide
    · split
      · decide
      · split
        · decide
        · split
          · decide
          · rename_i h1 h2 h3 h4 h5
            simp only [sCount, countChar, List.count_cons, List.count_nil]
            simp [h2, h3, h4]

theorem escape_sCount (s : String) : sCount (escape s) = 0 := by
  suffices h : ∀ cs : List Char, sCount ⟨cs.flatMap fun c => (escChar c).data⟩ = 0 by
    simpa [escape] using h s.data
  intro cs
  induction cs with
  | nil => decide
  | cons c r ih =>
    have : (⟨(c :: r).flatMap fun c => (escChar c).data⟩ : String) =
        escChar c ++ ⟨r.flatMap fun c => (escChar c).data⟩ := by
      apply String.ext
      simp [String.data_append]
    rw [this, sCount_append, ih, escChar_sCount c]

theorem unescGo_entity_amp (l : List Char) :
    unescGo ('&' :: 'a' :: 'm' :: 'p' :: ';' :: l) = '&' :: unescGo l := by
  rw [unescGo]; simp [prefixEq]

theorem unescGo_entity_lt (l : List Char) :
    unescGo ('&' :: 'l' :: 't' :: ';' :: l) = '<' :: unescGo l := by
  rw [unescGo]; simp [prefixEq]

theorem unescGo_entity_gt (l : List Char) :
    unescGo ('&' :: 'g' :: 't' :: ';' :: l) = '>' :: unescGo l := by
  rw [unescGo]; simp [prefixEq]

theorem unescGo_entity_quot (l : List Char) :
    unescGo ('&' :: 'q' :: 'u' :: 'o' :: 't' :: ';' :: l) = '"' :: unescGo l := by
  rw [unescGo]; simp [prefixEq]

theorem unescGo_entity_apos (l : List Char) :
    unescGo ('&' :: '#' :: 'x' :: '2' :: '7' :: ';' :: l) = '\'' :: unescGo l := by
  rw [unescGo]; simp [prefixEq]

theorem unescGo_cons_ne (c : Char) (l : List Char) (h : c ≠ '&') :
    unescGo (c :: l) = c :: unescGo l := by
  rw [unescGo]; simp [h]

theorem unescGo_escape (cs : List Char) :
    unescGo (cs.flatMap fun c => (escChar c).data) = cs := by
  induction cs with
  | nil => rw [List.flatMap_nil, unescGo]
  | cons c r ih =>
    rw [List.flatMap_cons]
    by_cases h1 : c = '&'
    · subst h1
      have hd : (escChar '&').data = ['&', 'a', 'm', 'p', ';'] := rfl
      rw [hd]; simp only [List.cons_append, List.nil_append]
      rw [unescGo_entity_amp, ih]
    · by_cases h2 : c = '<'
      · subst h2
        have hd : (escChar '<').data = ['&', 'l', 't', ';'] := rfl
        rw [hd]; simp only [List.cons_append, List.nil_append]
        rw [unescGo_entity_lt, ih]
      · by_cases h3 : c = '>'
        · subst h3
          have hd : (escChar '>').data = ['&', 'g', 't', ';'] := rfl
          rw [hd]; simp only [List.cons_append, List.nil_append]
          rw [unescGo_entity_gt, ih]
        · by_cases h4 : c = '"'
          · subst h4
            have hd : (escChar '"').data = ['&', 'q', 'u', 'o', 't', ';'] := rfl
            rw [hd]; simp only [List.cons_append, List.nil_append]
            rw [unescGo_entity_quot, ih]
          · by_cases h5 : c = '\''
            · subst h5
              have hd : (escChar '\'').data = ['&', '#', 'x', '2', '7', ';'] := rfl
              rw [hd]; simp only [List.cons_append, List.nil_append]
              rw [unescGo_entity_apos, ih]
            · have hd : (escChar c).data = [c] := by
                simp [escChar, h1, h2, h3, h4, h5]
              rw [hd]; simp only [List.cons_append, List.nil_append]
              rw [unescGo_cons_ne c _ h1, ih]

theorem unescape_escape (s : String) : unescape (escape s) = s := by
  apply String.ext
  simpa [unescape, escape] using unescGo_escape s.data

theorem sum_map_eq_mul {α : Type} (f : α → Nat) (k : Nat) (l : List α)
    (h : ∀ x ∈ l, f x = k) : (l.map f).sum = k * l.length := by
  induction l with
  | nil => simp
  | cons x r ih =>
    simp only [List.map_cons, List.sum_cons, List.length_cons]
    rw [h x (by simp), ih fun y hy => h y (by simp [hy])]
    ring

theorem sCount_renderBlock (b : String) :
    sCount (renderBlock b) = blockSpecials b := by
  unfold renderBlock blockSpecials
  by_cases h1 : b = pbMarker
  · simp only [if_pos h1]; decide
  · by_cases h2 : looksLikeHeading b
    · simp only [if_neg h1, if_pos h2, sCount_append, escape_sCount]
      decide
    · by_cases h3 : preBranch b
      · simp only [if_neg h1, if_pos h3, h2, Bool.false_eq_true, if_false,
          sCount_append, escape_sCount]
        decide
      · simp only [if_neg h1, h2, h3, Bool.false_eq_true, if_false,
          sCount_append, escape_sCount]
        decide

theorem sCount_navItemPart (d : String × String) : sCount (navItemPart d) = 10 := by
  simp only [navItemPart, sCount_append, escape_sCount]
  decide

theorem sCount_afRow (r : String × String) : sCount (afRow r) = 12 := by
  simp only [afRow, sCount_append, escape_sCount]
  decide

theorem sCount_notePart (n : String) : sCount (notePart n) = 4 := by
  simp only [notePart, sCount_append, escape_sCount]
  decide

theorem sCount_cardPart (d : IndexCard) : sCount (cardPart d) = 20 := by
  simp only [cardPart, sCount_append, escape_sCount]
  decide

theorem sCount_phArrest : sCount afPlaceholderArrest = 12 := by decide

theorem sCount_phFine : sCount afPlaceholderFine = 12 := by decide

theorem sCount_h2Notes : sCount "<h2>Notes</h2>" = 4 := by decide

/-- The `<`/`>`/`"` budget of a document page is determined by the
template, the nav fragment, the raw timestamp attribute and the block
shapes — never by the content of `title` or the blocks. -/
theorem sCount_buildDocHtml (title : String) (blocks : List String)
    (nav updated : String) :
    sCount (buildDocHtml title blocks nav updated) =
      sCount (buildDocHtml "" [] "" "") + sCount nav + sCount updated +
        (blocks.map blockSpecials).sum := by
  have hblocks : ((blocks.map renderBlock).map sCount).sum =
      (blocks.map blockSpecials).sum := by
    rw [List.map_map]
    exact congrArg List.sum (List.map_congr_left fun b _ => sCount_renderBlock b)
  unfold buildDocHtml buildDocHtmlParts
  rw [sCount_append, sCount_append, sCount_joinWith_nl, sCount_joinWith_nl]
  simp only [List.map_append, List.map_cons, List.map_nil, List.sum_append,
    List.sum_cons, List.sum_nil, sCount_append, escape_sCount, sCount_empty,
    hblocks]
  omega

/-- Same shape property for the navigation fragment. -/
theorem sCount_buildNav (docs : List (String × String)) :
    sCount (buildNav docs) = sCount (buildNav []) + 10 * docs.length := by
  unfold buildNav
  rw [sCount_joinWith_nl, sCount_joinWith_nl]
  simp only [List.map_append, List.map_cons, List.map_nil, List.sum_append,
    List.sum_cons, List.sum_nil, List.map_map]
  rw [sum_map_eq_mul (sCount ∘ navItemPart) 10 docs
    fun p _ => sCount_navItemPart p]
  omega

/-- Same shape property for the index page. -/
theorem sCount_buildIndexHtml (docs : List IndexCard) (updated : String) :
    sCount (buildIndexHtml docs updated) =
      sCount (buildIndexHtml [] "") + sCount updated + 20 * docs.length := by
  unfold buildIndexHtml buildIndexParts
  rw [sCount_append, sCount_append, sCount_joinWith_nl, sCount_joinWith_nl]
  simp only [List.map_cons, List.map_nil, List.sum_cons, List.sum_nil,
    sCount_append, escape_sCount, sCount_empty]
  rw [sCount_joinWith_nl, sCount_joinWith_nl]
  simp only [List.map_map, List.map_nil, List.sum_nil]
  rw [sum_map_eq_mul (sCount ∘ cardPart) 20 docs fun d _ => sCount_cardPart d]
  omega

/-- Same shape property for the arrests/fines page; the equation is
stated additively on both sides so that the "no data parsed"
placeholder rows (present exactly when a list is empty) need no
truncated subtraction. -/
theorem sCount_buildAfPage (p : ParsedGuide) (nav updated : String) :
    sCount (buildArrestsFinesPage p nav updated) +
        (if p.arrests.isEmpty then 0 else 12) +
        (if p.fines.isEmpty then 0 else 12) =
      sCount (buildArrestsFinesPage ⟨[], [], []⟩ "" "") + sCount nav +
        sCount updated + 12 * p.arrests.length + 12 * p.fines.length +
        (if p.notes.isEmpty then 0 else 4 + 4 * p.notes.length) := by
  obtain ⟨ar, fi, no⟩ := p
  unfold buildArrestsFinesPage buildAfParts
  rw [sCount_append, sCount_append, sCount_joinWith_nl, sCount_joinWith_nl]
  simp only [List.map_append, List.map_cons, List.map_nil, List.sum_append,
    List.sum_cons, List.sum_nil, sCount_append, escape_sCount, sCount_empty]
  rw [List.map_map, List.map_map,
    sum_map_eq_mul (sCount ∘ afRow) 12 ar fun r _ => sCount_afRow r,
    sum_map_eq_mul (sCount ∘ afRow) 12 fi fun r _ => sCount_afRow r]
  have hno : ((if no.isEmpty then ([] : List String)
      else "<h2>Notes</h2>" :: no.map notePart).map sCount).sum =
      if no.isEmpty then 0 else 4 + 4 * no.length := by
    cases no with
    | nil => simp
    | cons n r =>
      simp only [List.isEmpty_cons, Bool.false_eq_true, if_false, List.map_cons,
        List.sum_cons, List.map_map]
      rw [sCount_h2Notes, sCount_notePart,
        sum_map_eq_mul (sCount ∘ notePart) 4 r fun x _ => sCount_notePart x]
      simp only [List.length_cons]
      omega
  rw [hno]
  cases ar <;> cases fi <;> cases no <;>
    simp only [List.isEmpty_nil, List.isEmpty_cons, if_true, if_false,
      Bool.false_eq_true, List.map_cons, List.map_nil, List.sum_cons,
      List.sum_nil, List.length_cons, List.length_nil, sCount_empty,
      sCount_phArrest, sCount_phFine] <;>
    omega

/-! ## Claim theorems (concrete evaluations and renderer claims) -/

/-- C1: on the §8 sample text, `parse_law_enforcement_guide` is claimed
to return the two arrest rows, the Littering fine and the note.  The
code actually returns *empty* arrest and fine lists (only the note),
because `_TIME_RE` and `_AMOUNT_RE` are compiled from raw strings with
doubled backslashes and hence only match strings containing literal
backslashes — `"30 seconds"` and `"$50"` never match.  This theorem
evaluates the embedded code at the failing input. -/
theorem c1_sample_parse_eval :
    parseLawEnforcementGuide sampleGuideText =
      { arrests := [], fines := [], notes := ["* Fines subject to change"] } ∧
    parseLawEnforcementGuide sampleGuideText ≠
      { arrests := [("Speeding", "30 seconds"), ("Resisting Arrest", "2 minutes")],
        fines := [("Littering", "$50")],
        notes := ["* Fines subject to change"] } ∧
    timeReMatch "30 seconds" = false ∧
    amountSearch "$50" = false := by
  refine ⟨by decide, by decide, by decide, by decide⟩

/-- C3: the claim describes `_AMOUNT_RE` as matching currency-adjacent
digits, numbers with a currency code, or decimal numbers.  The compiled
pattern (doubled backslashes in a raw string) instead requires literal
backslash characters: `"$50"` with a non-empty buffer emits no row and
is buffered instead, while the backslash string `"\\d.\\d"` does emit a
row.  This theorem evaluates the embedded fine-section loop at both
inputs. -/
theorem c3_amount_emission_eval :
    (parseLawEnforcementGuide "Monetary Fines\nAmount\nLittering\n$50").fines = [] ∧
    (parseLawEnforcementGuide "Monetary Fines\nAmount\nLittering\n\\d.\\d").fines =
      [("Littering", "\\d.\\d")] ∧
    amountSearch "$50" = false ∧
    amountSearch "\\d.\\d" = true ∧
    fineStep { buf := ["Littering"], started := true, rows := [], notes := [] } "$50" =
      { buf := ["Littering", "$50"], started := true, rows := [], notes := [] } := by
  refine ⟨by decide, by decide, by decide, by decide, by decide⟩

/-- C6 counterexample: the single-space text is non-empty, has no run
of two newlines after normalization and no page-break sentinel, yet
`split_paragraphs` yields zero blocks, not one — the whitespace-only
segment is dropped after trimming. -/
theorem c6_counterexample_space :
    (" " : String) ≠ "" ∧
    hasSub (normNL (" " : String).data) ['\n', '\n'] = false ∧
    '\x0c' ∉ (" " : String).data ∧
    splitParagraphs " " = [] := by
  refine ⟨by decide, by decide, by decide, by decide⟩

/-- C9 counterexample: the header comparison lowercases the line, so
`"JAIL TIME"` — which differs from the literal match list only in
letter case — *is* skipped as a header: with the section started and an
empty buffer the line leaves the state unchanged (it is not buffered),
and in a full parse the subsequent `_TIME_RE`-matching value line finds
an empty buffer and emits nothing. -/
theorem c9_counterexample_case :
    arrestStep { buf := [], started := true, rows := [], notes := [] } "JAIL TIME" =
      { buf := [], started := true, rows := [], notes := [] } ∧
    "JAIL TIME" ∉ (["Arrest Reasons", "Arrest Reason", "Jail Time"] : List String) ∧
    (parseLawEnforcementGuide "Arrest Reasons\nJAIL TIME\n\\d\\seconds").arrests =
      [] ∧
    (parseLawEnforcementGuide "Arrest Reasons\nSpeeding\n\\d\\seconds").arrests =
      [("Speeding", "\\d\\seconds")] := by
  refine ⟨by decide, by decide, by decide, by decide⟩

/-- C2: every `<`, `>` and `"` in rendered output comes from the fixed
markup, never from an interpolated user string: for each renderer the
total count of those characters is a function of the input shape alone
(plus the raw nav fragment and the one unescaped `datetime` timestamp
attribute, neither of which is user-derived document data, the nav
fragment itself satisfying the same shape equation).  `escape` emits
none of those characters, maps each special character to its entity,
and `unescape ∘ escape = id`, so every special character of the input
appears in the output exactly in escaped form. -/
theorem c2_renderers_escape_all_user_data :
    (escChar '&' = "&amp;" ∧ escChar '<' = "&lt;" ∧ escChar '>' = "&gt;" ∧
      escChar '"' = "&quot;") ∧
    (∀ s : String, countChar '<' (escape s) = 0 ∧ countChar '>' (escape s) = 0 ∧
      countChar '"' (escape s) = 0) ∧
    (∀ s : String, unescape (escape s) = s) ∧
    (∀ (title : String) (blocks : List String) (nav updated : String),
      sCount (buildDocHtml title blocks nav updated) =
        sCount (buildDocHtml "" [] "" "") + sCount nav + sCount updated +
          (blocks.map blockSpecials).sum) ∧
    (∀ docs : List (String × String),
      sCount (buildNav docs) = sCount (buildNav []) + 10 * docs.length) ∧
    (∀ (docs : List IndexCard) (updated : String),
      sCount (buildIndexHtml docs updated) =
        sCount (buildIndexHtml [] "") + sCount updated + 20 * docs.length) ∧
    (∀ (p : ParsedGuide) (nav updated : String),
      sCount (buildArrestsFinesPage p nav updated) +
          (if p.arrests.isEmpty then 0 else 12) +
          (if p.fines.isEmpty then 0 else 12) =
        sCount (buildArrestsFinesPage ⟨[], [], []⟩ "" "") + sCount nav +
          sCount updated + 12 * p.arrests.length + 12 * p.fines.length +
          (if p.notes.isEmpty then 0 else 4 + 4 * p.notes.length)) := by
  refine ⟨⟨rfl, rfl, rfl, rfl⟩, ?_, unescape_escape, sCount_buildDocHtml,
    sCount_buildNav, sCount_buildIndexHtml, sCount_buildAfPage⟩
  intro s
  have h := escape_sCount s
  unfold sCount at h
  omega

/-- C8: the renderers are pure functions of their arguments — equal
inputs (title, blocks, nav fragment, parsed rows, cards, and a fixed
timestamp string) give byte-identical output strings. -/
theorem c8_render_deterministic (t1 t2 : String) (b1 b2 : List String)
    (n1 n2 u1 u2 : String) (p1 p2 : ParsedGuide) (d1 d2 : List IndexCard)
    (ht : t1 = t2) (hb : b1 = b2) (hn : n1 = n2) (hu : u1 = u2)
    (hp : p1 = p2) (hd : d1 = d2) :
    buildDocHtml t1 b1 n1 u1 = buildDocHtml t2 b2 n2 u2 ∧
    buildArrestsFinesPage p1 n1 u1 = buildArrestsFinesPage p2 n2 u2 ∧
    buildIndexHtml d1 u1 = buildIndexHtml d2 u2 := by
  subst ht hb hn hu hp hd
  exact ⟨rfl, rfl, rfl⟩

/-- Witness for C8 at concrete inputs. -/
theorem c8_render_deterministic_witness :
    buildDocHtml "Doc" ["A"] "" "2024-01-01T00:00:00Z" =
      buildDocHtml "Doc" ["A"] "" "2024-01-01T00:00:00Z" ∧
    buildArrestsFinesPage ⟨[], [], []⟩ "" "2024-01-01T00:00:00Z" =
      buildArrestsFinesPage ⟨[], [], []⟩ "" "2024-01-01T00:00:00Z" ∧
    buildIndexHtml [] "2024-01-01T00:00:00Z" =
      buildIndexHtml [] "2024-01-01T00:00:00Z" :=
  c8_render_deterministic "Doc" "Doc" ["A"] ["A"] "" "" "2024-01-01T00:00:00Z"
    "2024-01-01T00:00:00Z" ⟨[], [], []⟩ ⟨[], [], []⟩ [] [] rfl rfl rfl rfl rfl rfl

/-! ## The heading classifier (C4) -/

theorem mk_data (s : String) : (⟨s.data⟩ : String) = s := rfl

theorem splitWsGo_no_ws : ∀ (cs acc : List Char),
    (∀ c ∈ acc, pyIsSpace c = false) →
    ∀ w ∈ splitWsGo cs acc, ∀ c ∈ w, pyIsSpace c = false := by
  intro cs
  induction cs with
  | nil =>
    intro acc hacc w hw c hc
    by_cases ha : acc.isEmpty
    · simp [splitWsGo, ha] at hw
    · simp [splitWsGo, ha] at hw
      subst hw
      exact hacc c (List.mem_reverse.mp hc)
  | cons d r ih =>
    intro acc hacc w hw c hc
    cases hd : pyIsSpace d with
    | true =>
      by_cases ha : acc.isEmpty
      · simp only [splitWsGo, hd, if_true, ha] at hw
        exact ih [] (by simp) w hw c hc
      · simp only [splitWsGo, hd, if_true, ha, Bool.false_eq_true, if_false,
          List.mem_cons] at hw
        rcases hw with hw | hw
        · subst hw
          exact hacc c (List.mem_reverse.mp hc)
        · exact ih [] (by simp) w hw c hc
    | false =>
      simp only [splitWsGo, hd, Bool.false_eq_true, if_false] at hw
      refine ih (d :: acc) ?_ w hw c hc
      intro x hx
      rcases List.mem_cons.mp hx with hx | hx
      · subst hx; exact hd
      · exact hacc x hx

theorem joinWith_space_chars : ∀ ws : List String,
    (∀ w ∈ ws, ∀ c ∈ w.data, pyIsSpace c = false) →
    ∀ c ∈ (joinWith " " ws).data, c = ' ' ∨ pyIsSpace c = false := by
  intro ws
  induction ws with
  | nil => intro _ c hc; simp [joinWith] at hc
  | cons p ps ih =>
    intro h c hc
    cases ps with
    | nil =>
      simp only [joinWith] at hc
      exact Or.inr (h p (by simp) c hc)
    | cons q qs =>
      simp only [joinWith, String.data_append, List.mem_append] at hc
      rcases hc with (hc | hc) | hc
      · exact Or.inr (h p (by simp) c hc)
      · left
        simpa using hc
      · exact ih (fun w hw => h w (by simp [hw])) c (by simpa [joinWith] using hc)

theorem collapse_chars (s : String) :
    ∀ c ∈ (collapse s).data, c = ' ' ∨ pyIsSpace c = false := by
  intro c hc
  refine joinWith_space_chars (pySplitWs s) ?_ c hc
  intro w hw d hd
  unfold pySplitWs at hw
  rcases List.mem_map.mp hw with ⟨l, hl, hwl⟩
  subst hwl
  exact splitWsGo_no_ws s.data [] (by simp) l hl d hd

theorem collapse_no_nl (s : String) : '\n' ∉ (collapse s).data := by
  intro h
  rcases collapse_chars s '\n' h with h1 | h1
  · exact absurd h1 (by decide)
  · exact absurd h1 (by decide)

theorem endsPunct_eq_getLast (s : String) (h : '\n' ∉ s.data) :
    endsPunct s = (match s.data.getLast? with
      | some c => c = '.' || c = '!' || c = '?'
      | none => false) := by
  unfold endsPunct
  rcases hr : s.data.reverse with _ | ⟨c, rest⟩
  · have hs : s.data = [] := by simpa using congrArg List.reverse hr
    rw [hs]
    rfl
  · have hlast : s.data.getLast? = some c := by
      rw [← List.head?_reverse, hr]
      rfl
    by_cases hc : c = '\n'
    · exfalso
      apply h
      apply List.mem_reverse.mp
      rw [hr, hc]
      exact List.mem_cons_self _ _
    · rw [hlast]
      split
      · rename_i heq
        rw [List.cons.injEq] at heq
        exact absurd heq.1 hc
      · simp [List.head?_cons]

theorem splitWsGo_all_nonws : ∀ (cs acc : List Char),
    (∀ c ∈ cs, pyIsSpace c = false) →
    splitWsGo cs acc =
      if acc.isEmpty && cs.isEmpty then [] else [acc.reverse ++ cs] := by
  intro cs
  induction cs with
  | nil =>
    intro acc _
    by_cases ha : acc.isEmpty <;> simp [splitWsGo, ha]
  | cons d r ih =>
    intro acc h
    have hd : pyIsSpace d = false := h d (by simp)
    simp only [splitWsGo, hd, Bool.false_eq_true, if_false]
    rw [ih (d :: acc) (fun c hc => h c (by simp [hc]))]
    simp [List.isEmpty_cons, List.reverse_cons, List.append_assoc]

theorem collapse_of_nonws (s : String) (hne : s.data ≠ [])
    (h : ∀ c ∈ s.data, pyIsSpace c = false) : collapse s = s := by
  unfold collapse pySplitWs
  rw [splitWsGo_all_nonws s.data [] h]
  have he : s.data.isEmpty = false := by simpa [List.isEmpty_iff] using hne
  simp only [List.isEmpty_nil, he, Bool.true_and, Bool.false_eq_true, if_false,
    List.reverse_nil, List.nil_append, List.map_cons, List.map_nil, joinWith]

/-- C4: the classifier applies the claimed rules in order, first match
winning, on the whitespace-collapsed text; in particular the four data
points of the claim hold (the last one for every 90-character
whitespace-free string). -/
theorem c4_heading_rules :
    (∀ b : String, looksLikeHeading b = specLooksLikeHeading b) ∧
    looksLikeHeading "INTRODUCTION" = true ∧
    looksLikeHeading "This is a sentence." = false ∧
    looksLikeHeading "Chapter One Overview" = true ∧
    (∀ s : String, s.data.length = 90 → (∀ c ∈ s.data, pyIsSpace c = false) →
      looksLikeHeading s = false) := by
  refine ⟨?_, by decide, by decide, by decide, ?_⟩
  · intro b
    simp only [looksLikeHeading, specLooksLikeHeading, pyIsUpper]
    rw [endsPunct_eq_getLast (collapse b) (collapse_no_nl b)]
  · intro s h90 hns
    have hne : s.data ≠ [] := by
      intro hh
      rw [hh] at h90
      simp at h90
    have hc := collapse_of_nonws s hne hns
    unfold looksLikeHeading
    rw [hc]
    have hlen : 80 < s.length := by
      show 80 < s.data.length
      omega
    simp [hlen]

/-- Witness for C4 at a concrete 90-character whitespace-free string. -/
theorem c4_heading_rules_witness :
    looksLikeHeading ⟨List.replicate 90 'x'⟩ = false :=
  c4_heading_rules.2.2.2.2 ⟨List.replicate 90 'x'⟩ (by simp)
    (fun c hc => by rw [List.eq_of_mem_replicate hc]; decide)

/-! ## Trim lemmas (used by C7 and C9) -/

theorem head?_dropWhile_false (p : Char → Bool) :
    ∀ (l : List Char) (c : Char), (l.dropWhile p).head? = some c → p c = false := by
  intro l
  induction l with
  | nil => intro c hc; simp at hc
  | cons d r ih =>
    intro c hc
    cases hp : p d with
    | true => simp only [List.dropWhile_cons, hp, if_true] at hc; exact ih c hc
    | false =>
      simp only [List.dropWhile_cons, hp, Bool.false_eq_true, if_false,
        List.head?_cons, Option.some.injEq] at hc
      subst hc
      exact hp

theorem dropWhile_eq_self_of_head (p : Char → Bool) (l : List Char)
    (h : ∀ c, l.head? = some c → p c = false) : l.dropWhile p = l := by
  cases l with
  | nil => rfl
  | cons d r =>
    have := h d rfl
    simp [List.dropWhile_cons, this]

theorem getLast?_dropWhile (p : Char → Bool) :
    ∀ l : List Char, l.dropWhile p ≠ [] →
      (l.dropWhile p).getLast? = l.getLast? := by
  intro l
  induction l with
  | nil => intro h; simp at h
  | cons d r ih =>
    intro h
    cases hp : p d with
    | true =>
      simp only [List.dropWhile_cons, hp, if_true] at h ⊢
      have hr : r ≠ [] := by
        intro hh
        subst hh
        simp at h
      rw [ih h]
      cases r with
      | nil => exact absurd rfl hr
      | cons e s => simp [List.getLast?_cons_cons]
    | false => simp [List.dropWhile_cons, hp]

theorem stripList_head_not_ws (l : List Char) (c : Char)
    (h : (stripList l).head? = some c) : pyIsSpace c = false := by
  unfold stripList at h
  rw [List.head?_reverse] at h
  have hu : (l.dropWhile pyIsSpace).reverse.dropWhile pyIsSpace ≠ [] := by
    intro hh
    rw [hh] at h
    simp at h
  rw [getLast?_dropWhile pyIsSpace _ hu, List.getLast?_reverse] at h
  exact head?_dropWhile_false pyIsSpace l c h

theorem stripList_getLast_not_ws (l : List Char) (c : Char)
    (h : (stripList l).getLast? = some c) : pyIsSpace c = false := by
  unfold stripList at h
  rw [List.getLast?_reverse] at h
  exact head?_dropWhile_false pyIsSpace _ c h

theorem stripList_idem (l : List Char) : stripList (stripList l) = stripList l := by
  have h1 : (stripList l).dropWhile pyIsSpace = stripList l :=
    dropWhile_eq_self_of_head _ _ (fun c hc => stripList_head_not_ws l c hc)
  have h2 : (stripList l).reverse.dropWhile pyIsSpace = (stripList l).reverse := by
    apply dropWhile_eq_self_of_head
    intro c hc
    rw [List.head?_reverse] at hc
    exact stripList_getLast_not_ws l c hc
  show (((stripList l).dropWhile pyIsSpace).reverse.dropWhile pyIsSpace).reverse =
    stripList l
  rw [h1, h2, List.reverse_reverse]

theorem pyStrip_idem (s : String) : pyStrip (pyStrip s) = pyStrip s := by
  show (⟨stripList (stripList s.data)⟩ : String) = ⟨stripList s.data⟩
  rw [stripList_idem]

/-! ## C7: no empty labels -/

theorem arrest_fold_good : ∀ (l : List String) (st : SecState),
    (∀ q ∈ st.rows, goodLabel q.1) →
    ∀ q ∈ (l.foldl arrestStep st).rows, goodLabel q.1 := by
  intro l
  induction l with
  | nil => intro st h q hq; exact h q hq
  | cons ln r ih =>
    intro st h q hq
    rw [List.foldl_cons] at hq
    refine ih (arrestStep st ln) ?_ q hq
    intro p hp
    simp only [arrestStep] at hp
    split at hp
    · exact h p hp
    · split at hp
      · exact h p hp
      · split at hp
        · simp only at hp
          split at hp
          · rename_i hne
            rcases List.mem_append.mp hp with hq1 | hq1
            · exact h p hq1
            · have hpe : p = (pyStrip (joinWith " " st.buf), ln) := by
                simpa using hq1
              subst hpe
              exact ⟨hne, pyStrip_idem _⟩
          · exact h p hp
        · exact h p hp

theorem fine_fold_good : ∀ (l : List String) (st : SecState),
    (∀ q ∈ st.rows, goodLabel q.1) →
    ∀ q ∈ (l.foldl fineStep st).rows, goodLabel q.1 := by
  intro l
  induction l with
  | nil => intro st h q hq; exact h q hq
  | cons ln r ih =>
    intro st h q hq
    rw [List.foldl_cons] at hq
    refine ih (fineStep st ln) ?_ q hq
    intro p hp
    simp only [fineStep] at hp
    split at hp
    · exact h p hp
    · split at hp
      · exact h p hp
      · split at hp
        · exact h p hp
        · split at hp
          · simp only at hp
            split at hp
            · rename_i hne
              rcases List.mem_append.mp hp with hq1 | hq1
              · exact h p hq1
              · have hpe : p = (pyStrip (joinWith " " st.buf), ln) := by
                  simpa using hq1
                subst hpe
                exact ⟨hne, pyStrip_idem _⟩
            · exact h p hp
          · exact h p hp

/-- C7: the extractor never emits a row with an empty label — every
emitted label is non-empty and already trimmed (hence not
whitespace-only); a value-pattern line met with an empty buffer emits
nothing. -/
theorem c7_no_empty_labels (text : String) :
    (∀ q ∈ (parseLawEnforcementGuide text).arrests, q.1 ≠ "" ∧ pyStrip q.1 = q.1) ∧
    (∀ q ∈ (parseLawEnforcementGuide text).fines, q.1 ≠ "" ∧ pyStrip q.1 = q.1) := by
  constructor
  · intro q hq
    simp only [parseLawEnforcementGuide] at hq
    split at hq
    · simp at hq
    · exact arrest_fold_good _ initSec (by simp [initSec]) q hq
  · intro q hq
    simp only [parseLawEnforcementGuide] at hq
    split at hq
    · simp at hq
    · exact fine_fold_good _ initSec (by simp [initSec]) q hq

/-- Witness for C7: a concrete successfully-parsed arrest row has a
non-empty trimmed label. -/
theorem c7_no_empty_labels_witness :
    ("Speeding" : String) ≠ "" ∧ pyStrip "Speeding" = "Speeding" :=
  (c7_no_empty_labels "Arrest Reasons\nJail Time\nSpeeding\n\\d\\seconds").1
    ("Speeding", "\\d\\seconds") (by decide)

/-! ## C9 (amended): case-insensitive header skipping -/

theorem pyLowerChar_eq_space (c : Char) (h : pyLowerChar c = ' ') : c = ' ' := by
  unfold pyLowerChar at h
  split at h
  · exfalso
    rename_i hup
    have hb : 'A' ≤ c ∧ c ≤ 'Z' := by simpa [isUpperAZ] using hup
    have h1 : 65 ≤ c.toNat := by
      have hle := hb.1
      rw [Char.le_def, UInt32.le_def] at hle
      have := BitVec.le_def.mp hle
      simpa [Char.toNat, UInt32.toNat] using this
    have h2 : c.toNat ≤ 90 := by
      have hle := hb.2
      rw [Char.le_def, UInt32.le_def] at hle
      have := BitVec.le_def.mp hle
      simpa [Char.toNat, UInt32.toNat] using this
    have hv : (c.toNat + 32).isValidChar := Or.inl (by omega)
    have ht : (Char.ofNat (c.toNat + 32)).toNat = c.toNat + 32 := by
      rw [Char.ofNat, dif_pos hv]
      simp [Char.ofNatAux, Char.toNat, UInt32.toNat]
    have h32 := congrArg Char.toNat h
    rw [ht] at h32
    have hsp : (' ' : Char).toNat = 32 := rfl
    rw [hsp] at h32
    omega
  · exact h

/-- C9 (amended): a line is skipped as an arrest-section header exactly
when its `lower()`-case form equals one of the lowercase literals in
the source's match list (so case variants *are* skipped); every line
the parser processes is already trimmed, and no trimmed line can have
the lowercase form `"jail time "`, so the trailing-space variant in the
match list is unreachable. -/
theorem c9_header_skip_characterization :
    (∀ ln : String, arrestStep initSec ln = { initSec with started := true } ↔
      strLower ln ∈ (["arrest reasons", "arrest reason", "jail time",
        "jail time "] : List String)) ∧
    (∀ text : String, (guideLines text).all (fun ln => pyStrip ln == ln) = true) ∧
    (∀ ln : String, pyStrip ln = ln → strLower ln ≠ "jail time ") := by
  refine ⟨?_, ?_, ?_⟩
  · intro ln
    constructor
    · intro h
      by_cases hmem : strLower ln ∈ (["arrest reasons", "arrest reason",
        "jail time", "jail time "] : List String)
      · exact hmem
      · exfalso
        simp only [List.mem_cons, List.not_mem_nil, or_false] at hmem
        push_neg at hmem
        obtain ⟨n1, n2, n3, n4⟩ := hmem
        have hcond : (decide (strLower ln = "arrest reasons") ||
            decide (strLower ln = "arrest reason") ||
            decide (strLower ln = "jail time") ||
            decide (strLower ln = "jail time") ||
            decide (strLower ln = "jail time ")) = false := by
          simp [n1, n2, n3, n4]
        have hstep : arrestStep initSec ln = initSec := by
          unfold arrestStep
          rw [if_neg]
          · rfl
          · simp only [hcond]
            exact Bool.false_ne_true
        rw [hstep] at h
        exact absurd (congrArg SecState.started h) (by decide)
    · intro hmem
      simp only [List.mem_cons, List.not_mem_nil, or_false] at hmem
      have hcond : (decide (strLower ln = "arrest reasons") ||
          decide (strLower ln = "arrest reason") ||
          decide (strLower ln = "jail time") ||
          decide (strLower ln = "jail time") ||
          decide (strLower ln = "jail time ")) = true := by
        rcases hmem with h | h | h | h <;> simp [h]
      unfold arrestStep
      rw [if_pos (by simp only [hcond])]
  · intro text
    rw [List.all_eq_true]
    intro ln hln
    unfold guideLines at hln
    rcases List.mem_map.mp hln with ⟨l, _, rfl⟩
    rw [beq_iff_eq]
    exact pyStrip_idem ⟨l⟩
  · intro ln h heq
    have hd : ln.data.map pyLowerChar = ("jail time " : String).data :=
      congrArg String.data heq
    have hlast : ln.data.getLast?.map pyLowerChar = some ' ' := by
      rw [← List.getLast?_map, hd]
      decide
    rcases Option.map_eq_some'.mp hlast with ⟨c, hc, hlc⟩
    have hcs : c = ' ' := pyLowerChar_eq_space c hlc
    subst hcs
    have hstr : stripList ln.data = ln.data := congrArg String.data h
    rw [← hstr] at hc
    exact absurd (stripList_getLast_not_ws ln.data ' ' hc) (by decide)

/-- Witness for C9's amended claim: a concrete trimmed line, and the
unreachability of the trailing-space variant at it. -/
theorem c9_header_skip_witness :
    pyStrip "jail time" = "jail time" ∧ strLower "jail time" ≠ "jail time " :=
  ⟨by decide, c9_header_skip_characterization.2.2 "jail time" (by decide)⟩

/-! ## The segmenter (C6, C10) -/

theorem mem_of_mem_normCRLF : ∀ (cs : List Char) (c : Char),
    c ∈ normCRLF cs → c ∈ cs := by
  intro cs
  induction cs using normCRLF.induct with
  | case1 r ih =>
    intro c hc
    rw [normCRLF] at hc
    rcases List.mem_cons.mp hc with h | h
    · subst h; simp
    · simp [ih c h]
  | case2 d r hne ih =>
    intro c hc
    rw [normCRLF] at hc
    · rcases List.mem_cons.mp hc with h | h
      · subst h; simp
      · simp [ih c h]
    · exact hne
  | case3 =>
    intro c hc
    simp [normCRLF] at hc

theorem mem_normCRLF_of_mem : ∀ (cs : List Char) (c : Char),
    c ∈ cs → c ≠ '\r' → c ∈ normCRLF cs := by
  intro cs
  induction cs using normCRLF.induct with
  | case1 r ih =>
    intro c hc hcr
    rw [normCRLF]
    rcases List.mem_cons.mp hc with h | h
    · exact absurd h hcr
    · rcases List.mem_cons.mp h with h1 | h1
      · subst h1; simp
      · simp [ih c h1 hcr]
  | case2 d r hne ih =>
    intro c hc hcr
    rw [normCRLF]
    · rcases List.mem_cons.mp hc with h | h
      · subst h; simp
      · simp [ih c h hcr]
    · exact hne
  | case3 =>
    intro c hc
    simp at hc

theorem mem_normNL_of_mem (cs : List Char) (c : Char) (hc : c ∈ cs)
    (hws : pyIsSpace c = false) : c ∈ normNL cs := by
  have hcr : c ≠ '\r' := by
    intro h
    subst h
    exact absurd hws (by decide)
  unfold normNL
  refine List.mem_map.mpr ⟨c, mem_normCRLF_of_mem cs c hc hcr, ?_⟩
  simp [hcr]

theorem ff_not_mem_normNL (cs : List Char) (h : '\x0c' ∉ cs) :
    '\x0c' ∉ normNL cs := by
  intro hmem
  unfold normNL at hmem
  rcases List.mem_map.mp hmem with ⟨d, hd, hde⟩
  by_cases hdr : d = '\r'
  · rw [hdr] at hde
    simp at hde
  · rw [if_neg hdr] at hde
    subst hde
    exact h (mem_of_mem_normCRLF cs _ hd)

theorem expandFF_no_ff (cs : List Char) (h : '\x0c' ∉ cs) : expandFF cs = cs := by
  induction cs with
  | nil => rfl
  | cons c r ih =>
    unfold expandFF at ih ⊢
    rw [List.flatMap_cons]
    have hc : c ≠ '\x0c' := fun hh => h (hh ▸ List.mem_cons_self c r)
    rw [if_neg hc, ih (fun hr => h (List.mem_cons_of_mem c hr))]
    rfl

theorem hasSub_tail (c : Char) (l pat : List Char)
    (h : hasSub (c :: l) pat = false) : hasSub l pat = false := by
  rw [hasSub.eq_def] at h
  exact (Bool.or_eq_false_iff.mp h).2

theorem sbGo_single : ∀ (cs acc : List Char) (n : Nat), n ≤ 1 →
    hasSub (List.replicate n '\n' ++ cs) ['\n', '\n'] = false →
    sbGo cs acc n = [acc.reverse ++ List.replicate n '\n' ++ cs] := by
  intro cs
  induction cs with
  | nil =>
    intro acc n hn _
    have h2 : ¬ 2 ≤ n := by omega
    simp [sbGo, h2]
  | cons c r ih =>
    intro acc n hn hsub
    by_cases hc : c = '\n'
    · subst hc
      have hn0 : n = 0 := by
        rcases Nat.le_one_iff_eq_zero_or_eq_one.mp hn with h | h
        · exact h
        · exfalso
          subst h
          rw [List.replicate, List.replicate] at hsub
          rw [hasSub.eq_def] at hsub
          simp [prefixEq] at hsub
      subst hn0
      rw [sbGo, if_pos rfl]
      have := ih acc 1 (by omega) (by simpa using hsub)
      rw [this]
      simp
    · have h2 : ¬ 2 ≤ n := by omega
      rw [sbGo, if_neg hc, if_neg h2]
      have hsub' : hasSub (List.replicate 0 '\n' ++ r) ['\n', '\n'] = false := by
        simp only [List.replicate, List.nil_append]
        rcases Nat.le_one_iff_eq_zero_or_eq_one.mp hn with h | h
        · subst h
          simp only [List.replicate, List.nil_append] at hsub
          exact hasSub_tail c r _ hsub
        · subst h
          simp only [List.replicate, List.singleton_append] at hsub
          exact hasSub_tail c r _ (hasSub_tail '\n' (c :: r) _ hsub)
      rw [ih (c :: (List.replicate n '\n' ++ acc)) 0 (by omega) hsub']
      simp [List.reverse_cons, List.reverse_append, List.append_assoc]

theorem stripList_ne_nil (cs : List Char) (c : Char) (hc : c ∈ cs)
    (hws : pyIsSpace c = false) : stripList cs ≠ [] := by
  intro h
  unfold stripList at h
  have h1 : (cs.dropWhile pyIsSpace).reverse.dropWhile pyIsSpace = [] := by
    simpa using congrArg List.reverse h
  have h2 : ∀ x ∈ (cs.dropWhile pyIsSpace).reverse, pyIsSpace x = true :=
    List.dropWhile_eq_nil_iff.mp h1
  have h3 : ∀ x ∈ cs.dropWhile pyIsSpace, pyIsSpace x = true := by
    intro x hx
    exact h2 x (List.mem_reverse.mpr hx)
  have h4 : ∀ x ∈ cs.takeWhile pyIsSpace, pyIsSpace x = true := by
    intro x hx
    exact List.mem_takeWhile_imp hx
  rw [← List.takeWhile_append_dropWhile (p := pyIsSpace) (l := cs)] at hc
  rcases List.mem_append.mp hc with h5 | h5
  · rw [h4 c h5] at hws
    exact absurd hws (by simp)
  · rw [h3 c h5] at hws
    exact absurd hws (by simp)

/-- C6 (amended): the segmenter yields zero blocks on empty input; one
block — the trimmed normalized text — on any sentinel-free input with
no blank-line run that contains at least one non-whitespace character
(a non-empty but all-whitespace input instead yields zero blocks, see
the counterexample); two blocks on `"A\n\n\nB"`; and exactly the
page-break marker block on a lone sentinel. -/
theorem c6_segmenter_blocks :
    splitParagraphs "" = [] ∧
    (∀ t : String, t ≠ "" → '\x0c' ∉ t.data →
      hasSub (normNL t.data) ['\n', '\n'] = false →
      (∃ c ∈ t.data, pyIsSpace c = false) →
      splitParagraphs t = [pyStrip ⟨normNL t.data⟩]) ∧
    splitParagraphs "A\n\n\nB" = ["A", "B"] ∧
    splitParagraphs "\x0c" = [pbMarker] := by
  refine ⟨by decide, ?_, by decide, by decide⟩
  intro t _ hff hnn hex
  rcases hex with ⟨c, hc, hcws⟩
  simp only [splitParagraphs]
  rw [expandFF_no_ff _ (ff_not_mem_normNL t.data hff)]
  rw [sbGo_single (normNL t.data) [] 0 (by omega) (by simpa using hnn)]
  have hne : pyStrip ⟨normNL t.data⟩ ≠ "" := by
    intro hh
    have : stripList (normNL t.data) = [] := congrArg String.data hh
    exact stripList_ne_nil (normNL t.data) c
      (mem_normNL_of_mem t.data c hc hcws) hcws this
  simp [hne]

/-- Witness for C6's amended universal clause. -/
theorem c6_segmenter_blocks_witness :
    splitParagraphs "a\nb" = [pyStrip ⟨normNL ("a\nb" : String).data⟩] :=
  c6_segmenter_blocks.2.1 "a\nb" (by decide) (by decide) (by decide)
    ⟨'a', by decide, by decide⟩

theorem joinWith_mem_decomp : ∀ (l : List String) (p : String), p ∈ l →
    ∃ x y, joinWith "\n" l = x ++ p ++ y := by
  intro l
  induction l with
  | nil => intro p hp; simp at hp
  | cons a r ih =>
    intro p hp
    rcases List.mem_cons.mp hp with h | h
    · subst h
      cases r with
      | nil => exact ⟨"", "", by simp [joinWith]⟩
      | cons b s =>
        refine ⟨"", "\n" ++ joinWith "\n" (b :: s), ?_⟩
        show joinWith "\n" (p :: b :: s) = "" ++ p ++ ("\n" ++ joinWith "\n" (b :: s))
        rw [joinWith]
        · simp [String.append_assoc]
        · simp
    · rcases ih p h with ⟨x, y, hxy⟩
      have hr : r ≠ [] := by
        intro hh
        subst hh
        simp at h
      refine ⟨a ++ "\n" ++ x, y, ?_⟩
      cases r with
      | nil => exact absurd rfl hr
      | cons b s =>
        rw [joinWith]
        · rw [hxy]
          simp [String.append_assoc]
        · simp

/-- C10: the page-break marker can be spoofed from document text — for
any sentinel-free input whose segmentation contains the literal marker
line, the rendered page contains the page-break separator element; and
the spoofed input segments identically to a genuine page-break input,
so the two pages are indistinguishable. -/
theorem c10_pagebreak_spoofable :
    (∀ (text title nav updated : String), '\x0c' ∉ text.data →
      pbMarker ∈ splitParagraphs text →
      ∃ x y, buildDocHtml title (splitParagraphs text) nav updated =
        x ++ "<hr class=\"pagebreak\" />" ++ y) ∧
    splitParagraphs "A\n\n[[PAGEBREAK]]\n\nB" = splitParagraphs "A\x0cB" := by
  constructor
  · intro text title nav updated _ hmem
    have hhr : renderBlock pbMarker = "<hr class=\"pagebreak\" />" := by
      simp [renderBlock]
    have hparts : "<hr class=\"pagebreak\" />" ∈
        buildDocHtmlParts title (splitParagraphs text) nav updated := by
      unfold buildDocHtmlParts
      refine List.mem_append.mpr (Or.inl (List.mem_append.mpr (Or.inr ?_)))
      rw [← hhr]
      exact List.mem_map_of_mem renderBlock hmem
    rcases joinWith_mem_decomp _ _ hparts with ⟨x, y, hxy⟩
    refine ⟨x, y ++ "\n", ?_⟩
    unfold buildDocHtml
    rw [hxy]
    simp [String.append_assoc]
  · decide

/-- Witness for C10 at a concrete spoofed input. -/
theorem c10_pagebreak_spoofable_witness :
    ∃ x y, buildDocHtml "T" (splitParagraphs "A\n\n[[PAGEBREAK]]\n\nB") "" "" =
      x ++ "<hr class=\"pagebreak\" />" ++ y :=
  c10_pagebreak_spoofable.1 "A\n\n[[PAGEBREAK]]\n\nB" "T" "" "" (by decide)
    (by decide)

/-! ## `slugify` (C5) -/

theorem char_toNat_le_of_le {a b : Char} (h : a ≤ b) : a.toNat ≤ b.toNat := by
  rw [Char.le_def, UInt32.le_def] at h
  have := BitVec.le_def.mp h
  simpa [Char.toNat, UInt32.toNat] using this

theorem isLowerAZ_bounds {c : Char} (h : isLowerAZ c = true) :
    97 ≤ c.toNat ∧ c.toNat ≤ 122 := by
  rw [isLowerAZ, Bool.and_eq_true, decide_eq_true_iff, decide_eq_true_iff] at h
  exact ⟨char_toNat_le_of_le h.1, char_toNat_le_of_le h.2⟩

theorem isDigit09_bounds {c : Char} (h : isDigit09 c = true) :
    48 ≤ c.toNat ∧ c.toNat ≤ 57 := by
  rw [isDigit09, Bool.and_eq_true, decide_eq_true_iff, decide_eq_true_iff] at h
  exact ⟨char_toNat_le_of_le h.1, char_toNat_le_of_le h.2⟩

theorem isUpperAZ_bounds {c : Char} (h : isUpperAZ c = true) :
    65 ≤ c.toNat ∧ c.toNat ≤ 90 := by
  rw [isUpperAZ, Bool.and_eq_true, decide_eq_true_iff, decide_eq_true_iff] at h
  exact ⟨char_toNat_le_of_le h.1, char_toNat_le_of_le h.2⟩

/-- Slug-alphabet characters are not upper-case letters, so `lower` is
the identity on them. -/
theorem slugChar_not_upper {c : Char} (h : isAlnumL c = true ∨ c = '-') :
    isUpperAZ c = false := by
  cases hu : isUpperAZ c with
  | false => rfl
  | true =>
    exfalso
    have hb := isUpperAZ_bounds hu
    rcases h with h | h
    · rw [isAlnumL, Bool.or_eq_true] at h
      rcases h with h | h
      · have := isLowerAZ_bounds h
        omega
      · have := isDigit09_bounds h
        omega
    · subst h
      exact absurd hu (by decide)

/-- Slug-alphabet characters are not whitespace. -/
theorem slugChar_not_ws {c : Char} (h : isAlnumL c = true ∨ c = '-') :
    pyIsSpace c = false := by
  cases hw : pyIsSpace c with
  | false => rfl
  | true =>
    exfalso
    have hle : c.toNat ≤ 32 := by
      simp only [pyIsSpace, Bool.or_eq_true, decide_eq_true_iff] at hw
      rcases hw with ((((h | h) | h) | h) | h) | h <;> (try subst h) <;> decide
    rcases h with h | h
    · rw [isAlnumL, Bool.or_eq_true] at h
      rcases h with h | h
      · have := isLowerAZ_bounds h
        omega
      · have := isDigit09_bounds h
        omega
    · subst h
      have : ('-').toNat = 45 := rfl
      omega

theorem sub1Go_chars : ∀ (cs : List Char) (b : Bool) (c : Char),
    c ∈ sub1Go cs b → isAlnumL c = true ∨ c = '-' := by
  intro cs
  induction cs with
  | nil => intro b c hc; simp [sub1Go] at hc
  | cons d r ih =>
    intro b c hc
    cases hd : isAlnumL d with
    | true =>
      simp only [sub1Go, hd, if_true] at hc
      rcases List.mem_cons.mp hc with h | h
      · subst h; exact Or.inl hd
      · exact ih false c h
    | false =>
      cases b with
      | true =>
        simp only [sub1Go, hd, Bool.false_eq_true, if_false, if_true] at hc
        exact ih true c hc
      | false =>
        simp only [sub1Go, hd, Bool.false_eq_true, if_false] at hc
        rcases List.mem_cons.mp hc with h | h
        · subst h; exact Or.inr rfl
        · exact ih true c h

theorem sub1Go_chain : ∀ (cs : List Char) (b : Bool),
    List.Chain' (fun a c : Char => ¬(a = '-' ∧ c = '-')) (sub1Go cs b) ∧
    ((sub1Go cs b).head? = some '-' → b = false) := by
  intro cs
  induction cs with
  | nil => intro b; simp [sub1Go]
  | cons d r ih =>
    intro b
    cases hd : isAlnumL d with
    | true =>
      simp only [sub1Go, hd, if_true]
      have hdne : d ≠ '-' := by
        intro hh
        rw [hh] at hd
        exact absurd hd (by decide)
      constructor
      · rw [List.chain'_cons']
        exact ⟨fun x _ hx => hdne hx.1, (ih false).1⟩
      · intro hh
        simp only [List.head?_cons, Option.some.injEq] at hh
        exact absurd hh hdne
    | false =>
      cases b with
      | true =>
        simp only [sub1Go, hd, Bool.false_eq_true, if_false, if_true]
        exact ⟨(ih true).1, fun hh => (ih true).2 hh⟩
      | false =>
        simp only [sub1Go, hd, Bool.false_eq_true, if_false]
        constructor
        · rw [List.chain'_cons']
          constructor
          · intro x hx hcontra
            have hx' : (sub1Go r true).head? = some '-' := by
              rw [← hcontra.2]
              exact hx
            exact absurd ((ih true).2 hx') (by decide)
          · exact (ih true).1
        · intro _
          trivial

theorem dedupHGo_subset : ∀ (cs : List Char) (b : Bool) (c : Char),
    c ∈ dedupHGo cs b → c ∈ cs := by
  intro cs
  induction cs with
  | nil => intro b c hc; simp [dedupHGo] at hc
  | cons d r ih =>
    intro b c hc
    by_cases hd : d = '-'
    · cases b with
      | true =>
        simp only [dedupHGo, hd, if_true] at hc
        exact List.mem_cons_of_mem d (ih true c hc)
      | false =>
        simp only [dedupHGo, hd, if_true, Bool.false_eq_true, if_false] at hc
        rcases List.mem_cons.mp hc with h | h
        · subst h; rw [hd]; simp
        · exact List.mem_cons_of_mem d (ih true c h)
    · simp only [dedupHGo, hd, if_false] at hc
      rcases List.mem_cons.mp hc with h | h
      · subst h; simp
      · exact List.mem_cons_of_mem d (ih false c h)

theorem dedupHGo_chain : ∀ (cs : List Char) (b : Bool),
    List.Chain' (fun a c : Char => ¬(a = '-' ∧ c = '-')) (dedupHGo cs b) ∧
    ((dedupHGo cs b).head? = some '-' → b = false) := by
  intro cs
  induction cs with
  | nil => intro b; simp [dedupHGo]
  | cons d r ih =>
    intro b
    by_cases hd : d = '-'
    · cases b with
      | true =>
        simp only [dedupHGo, hd, if_true]
        exact ⟨(ih true).1, fun hh => (ih true).2 hh⟩
      | false =>
        simp only [dedupHGo, hd, if_true, Bool.false_eq_true, if_false]
        constructor
        · rw [List.chain'_cons']
          constructor
          · intro x hx hcontra
            have hx' : (dedupHGo r true).head? = some '-' := by
              rw [← hcontra.2]
              exact hx
            exact absurd ((ih true).2 hx') (by decide)
          · exact (ih true).1
        · intro _
          trivial
    · simp only [dedupHGo, hd, if_false]
      constructor
      · rw [List.chain'_cons']
        exact ⟨fun x _ hx => hd hx.1, (ih false).1⟩
      · intro hh
        simp only [List.head?_cons, Option.some.injEq] at hh
        exact absurd hh hd

theorem hasSub_cons_eq (c : Char) (l pat : List Char) :
    hasSub (c :: l) pat = (prefixEq pat (c :: l) || hasSub l pat) := by
  rw [hasSub.eq_def]

theorem chain_reverse_hy {l : List Char}
    (h : List.Chain' (fun a c : Char => ¬(a = '-' ∧ c = '-')) l) :
    List.Chain' (fun a c : Char => ¬(a = '-' ∧ c = '-')) l.reverse := by
  rw [List.chain'_reverse]
  refine List.Chain'.imp ?_ h
  intro a b hab hc
  exact hab ⟨hc.2, hc.1⟩

theorem stripHyphen_chain {l : List Char}
    (h : List.Chain' (fun a c : Char => ¬(a = '-' ∧ c = '-')) l) :
    List.Chain' (fun a c : Char => ¬(a = '-' ∧ c = '-')) (stripHyphen l) := by
  unfold stripHyphen
  exact chain_reverse_hy
    (((chain_reverse_hy (h.suffix (List.dropWhile_suffix _))).suffix
      (List.dropWhile_suffix _)))

theorem stripHyphen_head (l : List Char) (c : Char)
    (h : (stripHyphen l).head? = some c) : c ≠ '-' := by
  unfold stripHyphen at h
  rw [List.head?_reverse] at h
  have hu : (l.dropWhile (· = '-')).reverse.dropWhile (· = '-') ≠ [] := by
    intro hh
    rw [hh] at h
    simp at h
  rw [getLast?_dropWhile _ _ hu, List.getLast?_reverse] at h
  have := head?_dropWhile_false _ l c h
  simpa using this

theorem stripHyphen_getLast (l : List Char) (c : Char)
    (h : (stripHyphen l).getLast? = some c) : c ≠ '-' := by
  unfold stripHyphen at h
  rw [List.getLast?_reverse] at h
  have := head?_dropWhile_false _ _ c h
  simpa using this

theorem stripHyphen_subset (l : List Char) (c : Char)
    (h : c ∈ stripHyphen l) : c ∈ l := by
  unfold stripHyphen at h
  rw [List.mem_reverse] at h
  have h1 := (List.dropWhile_sublist (l := (l.dropWhile (· = '-')).reverse)
    (p := (· = '-'))).subset h
  rw [List.mem_reverse] at h1
  exact (List.dropWhile_sublist (l := l) (p := (· = '-'))).subset h1

theorem chain_iff_noDD : ∀ l : List Char,
    List.Chain' (fun a c : Char => ¬(a = '-' ∧ c = '-')) l ↔
      hasSub l ['-', '-'] = false := by
  intro l
  induction l with
  | nil =>
    rw [hasSub.eq_def]
    simp [prefixEq]
  | cons c r ih =>
    rw [hasSub_cons_eq, List.chain'_cons']
    constructor
    · rintro ⟨hhead, hchain⟩
      rw [Bool.or_eq_false_iff]
      refine ⟨?_, ih.mp hchain⟩
      by_cases hc : c = '-'
      · subst hc
        cases r with
        | nil => simp [prefixEq]
        | cons d s =>
          have hd : d ≠ '-' := by
            intro hh
            exact hhead d rfl ⟨rfl, hh⟩
          have hd' : ¬('-' = d) := fun hh => hd hh.symm
          simp [prefixEq, hd']
      · have hc' : ¬('-' = c) := fun hh => hc hh.symm
        simp [prefixEq, hc']
    · intro h
      rw [Bool.or_eq_false_iff] at h
      obtain ⟨hp, hs⟩ := h
      refine ⟨?_, ih.mpr hs⟩
      intro x hx hcontra
      obtain ⟨hc, hx2⟩ := hcontra
      subst hc
      subst hx2
      cases r with
      | nil => simp at hx
      | cons d s =>
        have hd : d = '-' := by simpa using hx
        subst hd
        simp [prefixEq] at hp

theorem sub1Go_fixed : ∀ (cs : List Char) (b : Bool),
    (∀ c ∈ cs, isAlnumL c = true ∨ c = '-') →
    List.Chain' (fun a c : Char => ¬(a = '-' ∧ c = '-')) cs →
    (b = true → cs.head? ≠ some '-') →
    sub1Go cs b = cs := by
  intro cs
  induction cs with
  | nil => intro b _ _ _; rfl
  | cons d r ih =>
    intro b hchars hchain hhead
    rcases hchars d (by simp) with hd | hd
    · simp only [sub1Go, hd, if_true]
      congr 1
      refine ih false (fun c hc => hchars c (by simp [hc])) hchain.tail ?_
      intro hh
      exact absurd hh Bool.false_ne_true
    · subst hd
      have hdal : isAlnumL '-' = false := by decide
      cases b with
      | true => exact absurd rfl (hhead rfl)
      | false =>
        simp only [sub1Go, hdal, Bool.false_eq_true, if_false]
        congr 1
        refine ih true (fun c hc => hchars c (by simp [hc])) hchain.tail ?_
        intro _ hh2
        obtain ⟨hhd, _⟩ := List.chain'_cons'.mp hchain
        exact hhd '-' hh2 ⟨rfl, rfl⟩

theorem dedupHGo_fixed : ∀ (cs : List Char) (b : Bool),
    List.Chain' (fun a c : Char => ¬(a = '-' ∧ c = '-')) cs →
    (b = true → cs.head? ≠ some '-') →
    dedupHGo cs b = cs := by
  intro cs
  induction cs with
  | nil => intro b _ _; rfl
  | cons d r ih =>
    intro b hchain hhead
    by_cases hd : d = '-'
    · subst hd
      cases b with
      | true => exact absurd rfl (hhead rfl)
      | false =>
        have hstep : dedupHGo ('-' :: r) false = '-' :: dedupHGo r true := by
          simp [dedupHGo]
        rw [hstep]
        congr 1
        refine ih true hchain.tail ?_
        intro _ hh2
        obtain ⟨hhd, _⟩ := List.chain'_cons'.mp hchain
        exact hhd '-' hh2 ⟨rfl, rfl⟩
    · simp only [dedupHGo, hd, if_false]
      congr 1
      refine ih false hchain.tail ?_
      intro hh
      exact absurd hh Bool.false_ne_true

set_option maxHeartbeats 1000000 in
theorem slug_outcome (name : String) :
    validSlug (slugify name) = true ∨ slugify name = "doc" := by
  simp only [slugify]
  by_cases h5 : (stripHyphen (dedupHGo (sub1Go (dropPdfSuffix
      (stripList (strLower name).data)) false) false)).isEmpty
  · right
    rw [if_pos h5]
  · left
    rw [if_neg h5]
    set s3 := sub1Go (dropPdfSuffix (stripList (strLower name).data)) false with hs3
    set s4 := dedupHGo s3 false with hs4
    set s5 := stripHyphen s4 with hs5
    have hchars : ∀ c ∈ s5, isAlnumL c = true ∨ c = '-' := by
      intro c hc
      exact sub1Go_chars _ false c (dedupHGo_subset s3 false c (stripHyphen_subset s4 c hc))
    have hchain5 := stripHyphen_chain (dedupHGo_chain s3 false).1
    have hne : s5 ≠ [] := by
      intro hh
      rw [hh] at h5
      exact h5 rfl
    unfold validSlug
    simp only [Bool.and_eq_true]
    refine ⟨⟨⟨⟨?_, ?_⟩, ?_⟩, ?_⟩, ?_⟩
    · simpa [List.isEmpty_iff] using hne
    · rw [List.all_eq_true]
      intro c hc
      rcases hchars c hc with h | h <;> simp [h]
    · rcases hh : s5.head? with _ | c
      · rw [List.head?_eq_none_iff] at hh
        exact absurd hh hne
      · simpa using stripHyphen_head s4 c hh
    · rcases hh : s5.getLast? with _ | c
      · rw [List.getLast?_eq_none_iff] at hh
        exact absurd hh hne
      · simpa using stripHyphen_getLast s4 c hh
    · simp [(chain_iff_noDD s5).mp hchain5]

set_option maxHeartbeats 1000000 in
theorem slugify_fixed_of_valid (o : String) (hv : validSlug o = true) :
    slugify o = o := by
  simp only [validSlug, Bool.and_eq_true] at hv
  obtain ⟨⟨⟨⟨h1, h2⟩, h3⟩, h4⟩, h5⟩ := hv
  have hne : o.data ≠ [] := by
    intro hh
    rw [hh] at h1
    simp at h1
  have hchars : ∀ c ∈ o.data, isAlnumL c = true ∨ c = '-' := by
    intro c hc
    have := List.all_eq_true.mp h2 c hc
    simpa using this
  have hchain : List.Chain' (fun a c : Char => ¬(a = '-' ∧ c = '-')) o.data :=
    (chain_iff_noDD o.data).mpr (by simpa using h5)
  have hhead : ∀ c, o.data.head? = some c → c ≠ '-' := by
    intro c hc
    rw [hc] at h3
    simpa using h3
  have hlast : ∀ c, o.data.getLast? = some c → c ≠ '-' := by
    intro c hc
    rw [hc] at h4
    simpa using h4
  have e1 : strLower o = o := by
    apply String.ext
    show o.data.map pyLowerChar = o.data
    have hmap : ∀ c ∈ o.data, pyLowerChar c = id c := by
      intro c hc
      unfold pyLowerChar
      rw [slugChar_not_upper (hchars c hc)]
      simp
    rw [List.map_congr_left hmap, List.map_id]
  have e2 : stripList o.data = o.data := by
    unfold stripList
    have g2 : ∀ c, o.data.reverse.head? = some c → pyIsSpace c = false := by
      intro c hc
      exact slugChar_not_ws (hchars c (List.mem_reverse.mp (List.mem_of_mem_head? hc)))
    rw [dropWhile_eq_self_of_head pyIsSpace o.data
      (fun c hc => slugChar_not_ws (hchars c (List.mem_of_mem_head? hc)))]
    rw [dropWhile_eq_self_of_head pyIsSpace o.data.reverse g2, List.reverse_reverse]
  have e3 : dropPdfSuffix o.data = o.data := by
    unfold dropPdfSuffix
    rw [if_neg]
    intro hh
    have hdot : '.' ∈ o.data := by
      have h0 : '.' ∈ o.data.reverse.take 4 := by
        rw [hh]
        decide
      exact List.mem_reverse.mp (List.mem_of_mem_take h0)
    rcases hchars '.' hdot with hcc | hcc
    · exact absurd hcc (by decide)
    · exact absurd hcc (by decide)
  have e4 : sub1Go o.data false = o.data :=
    sub1Go_fixed o.data false hchars hchain (fun hh => absurd hh Bool.false_ne_true)
  have e5 : dedupHGo o.data false = o.data :=
    dedupHGo_fixed o.data false hchain (fun hh => absurd hh Bool.false_ne_true)
  have e6 : stripHyphen o.data = o.data := by
    unfold stripHyphen
    have g1 : ∀ c, o.data.head? = some c → (decide (c = '-')) = false := by
      intro c hc
      simp [hhead c hc]
    have g2 : ∀ c, o.data.reverse.head? = some c → (decide (c = '-')) = false := by
      intro c hc
      rw [List.head?_reverse] at hc
      simp [hlast c hc]
    rw [dropWhile_eq_self_of_head _ o.data g1,
      dropWhile_eq_self_of_head _ o.data.reverse g2, List.reverse_reverse]
  simp only [slugify]
  rw [e1, e2, e3, e4, e5, e6]
  have hie : o.data.isEmpty = false := by simpa [List.isEmpty_iff] using hne
  rw [if_neg (by simp [hie])]

theorem slug_idem (name : String) : slugify (slugify name) = slugify name := by
  rcases slug_outcome name with hv | hd
  · exact slugify_fixed_of_valid (slugify name) hv
  · rw [hd]
    decide

/-- C5: `slugify` is total — its result is either a well-formed slug
(`^[a-z0-9]+(-[a-z0-9]+)*$`) or the fallback token `"doc"` — and
idempotent. -/
theorem c5_slugify_total_idempotent :
    (∀ name : String, validSlug (slugify name) = true ∨ slugify name = "doc") ∧
    (∀ name : String, slugify (slugify name) = slugify name) :=
  ⟨slug_outcome, slug_idem⟩

end Knp
